import Mathlib

/-!
Verification of the rircBot weather bot (src/main.rs).

We shallowly embed the command-resolution logic (`WeatherBot::parse_weather_query`),
the outbound chunking of `WeatherBot::send_weather_data`, the supervisor loop of
`WeatherBot::run`, and the session event loop of `WeatherBot::connect_and_run`,
and prove the spec's testable properties about them.
-/

/- ## Character classes of the three regexes

`re_location = !w ([a-zA-Z,\s]+)`, `re_zip = !w (\d+)`, `re_nick = !w ([^\d\s]+)`.
`[a-zA-Z]` is ASCII-only. `\s` is the Unicode whitespace class of the regex crate,
listed explicitly below. `\d` (Unicode decimal digit) is modelled by its ASCII
subset `Char.isDigit`; no claim exercises non-ASCII digits. -/

def isWsChar (c : Char) : Bool :=
  c = ' ' || c = '\t' || c = '\n' || c = '\x0B' || c = '\x0C' || c = '\r' ||
  c.toNat = 0x85 || c.toNat = 0xA0 || c.toNat = 0x1680 ||
  (0x2000 <= c.toNat && c.toNat <= 0x200A) ||
  c.toNat = 0x2028 || c.toNat = 0x2029 || c.toNat = 0x202F ||
  c.toNat = 0x205F || c.toNat = 0x3000

def isLocChar (c : Char) : Bool :=
  c.isAlpha || c = ',' || isWsChar c

def isZipChar (c : Char) : Bool :=
  c.isDigit

def isNickChar (c : Char) : Bool :=
  !c.isDigit && !isWsChar c

/- ## Regex scan

All three regexes have the shape `!w (<class>+)`. `Regex::captures` finds the
leftmost starting position at which the whole pattern matches and captures
greedily, so: scan left to right; at the first position where the literal
`!w ` is followed by at least one class character, capture the maximal run of
class characters after the `!w `. -/

/-- Attempt the pattern `!w (<class>+)` anchored at the head of `l`:
succeeds iff `l` starts with the literal characters `!`, `w`, `space` followed
by at least one character of the class `p`; the capture group takes the maximal
run of class characters (greedy `+` with nothing after the group). -/
def matchAt (p : Char → Bool) : List Char → Option (List Char)
  | '!' :: 'w' :: ' ' :: d :: rest =>
      if p d then some ((d :: rest).takeWhile p) else none
  | _ => none

/-- Leftmost match: try `matchAt` at each position from the left, advancing one
character on failure, as `Regex::captures` does. Returns capture group 1. -/
def capture (p : Char → Bool) : List Char → Option (List Char)
  | [] => none
  | c :: rest =>
      match matchAt p (c :: rest) with
      | some cap => some cap
      | none => capture p rest

/-- `String::replace` with a single-character pattern maps each occurrence. -/
def replaceChar (a b : Char) (l : List Char) : List Char :=
  l.map fun c => if c = a then b else c

/- ## The resolver and its per-user memory

`nick_locations : HashMap<String, String>` is modelled as a function
`String → Option String` (`get` is application, `insert` overwrites one key). -/

def NickLocations : Type := String → Option String

def emptyLocations : NickLocations := fun _ => none

def insertLoc (k v : String) (m : NickLocations) : NickLocations :=
  fun x => if x = k then some v else m x

/-- Shallow embedding of `WeatherBot::parse_weather_query` (src/main.rs:125-146).
Returns the optional query together with the updated `nick_locations` map,
making the mutation of `self.nick_locations` explicit. -/
def parse_weather_query (content nick : String) (m : NickLocations) :
    Option String × NickLocations :=
  if content = "!w" then
    (m nick, m)
  else
    match capture isLocChar content.data with
    | some cap =>
        let query := String.mk (replaceChar ',' '+' (replaceChar ' ' '+' cap))
        (some query, insertLoc nick query m)
    | none =>
        match capture isZipChar content.data with
        | some cap =>
            let query := String.mk cap ++ ",+USA"
            (some query, insertLoc nick query m)
        | none =>
            match capture isNickChar content.data with
            | some cap => (m (String.mk cap), m)
            | none => (none, m)

/- ## Claims C1-C3: concrete resolutions -/

/-- C1 counterexample: with an empty store (so the key "bob" is absent and the
requester "u" has never stored anything), resolving "!w bob" returns
`some "bob"` — not `none` — and stores "bob" under "u", mutating the store.
Rule 2 shadowing rule 4 means the bare alphabetic token is captured as a
place name, not that the lookup fails. -/
theorem parse_bob_returns_some_not_none :
    emptyLocations "bob" = none ∧
    (parse_weather_query "!w bob" "u" emptyLocations).1 = some "bob" ∧
    (parse_weather_query "!w bob" "u" emptyLocations).2 "u" = some "bob" :=
  ⟨rfl, by decide, by decide⟩

/-- C1 (amended): for every requester U and store in which the key "bob" is
absent, resolving "!w bob" for U returns `some "bob"` and stores "bob" under U,
because rule 2 (the location pattern) captures the single alphabetic token
before rule 4 (the nickname lookup) is ever tried. -/
theorem parse_bob_rule2_shadows_rule4 (u : String) (m : NickLocations)
    (hbob : m "bob" = none) :
    parse_weather_query "!w bob" u m = (some "bob", insertLoc u "bob" m) := rfl

/-- Witness for `parse_bob_rule2_shadows_rule4` at u = "u", m = emptyLocations. -/
theorem parse_bob_rule2_shadows_rule4_witness :
    parse_weather_query "!w bob" "u" emptyLocations =
      (some "bob", insertLoc "u" "bob" emptyLocations) :=
  parse_bob_rule2_shadows_rule4 "u" emptyLocations rfl

/-- C2 counterexample: resolving "!w New York, NY" yields "New+York++NY"
(the comma and the following space each become a '+'; adjacent replacements do
NOT collapse), so the claimed result "New+York+NY" is wrong. -/
theorem parse_newyork_does_not_collapse :
    (parse_weather_query "!w New York, NY" "u" emptyLocations).1 =
      some "New+York++NY" ∧
    some "New+York++NY" ≠ some "New+York+NY" :=
  ⟨by decide, by decide⟩

/-- C2 (amended): resolving "!w New York, NY" for any requester returns the
canonical query "New+York++NY": each space and each comma is replaced by '+',
and adjacent replacements are kept, not collapsed. The query is also stored
under the requester. -/
theorem parse_location_newyork (u : String) (m : NickLocations) :
    parse_weather_query "!w New York, NY" u m =
      (some "New+York++NY", insertLoc u "New+York++NY" m) := rfl

/-- C3: for every requester U and every store, resolving "!w 10001" returns
`some "10001,+USA"` and afterwards the store maps U to exactly that query
(any previous entry for U is overwritten by the insert). -/
theorem parse_zip_10001 (u : String) (m : NickLocations) :
    parse_weather_query "!w 10001" u m =
      (some "10001,+USA", insertLoc u "10001,+USA" m) ∧
    insertLoc u "10001,+USA" m u = some "10001,+USA" :=
  ⟨rfl, by simp [insertLoc]⟩

/- ## Claims C4, C9: memory round trip and store invariant -/

/-- Inserting for one key keeps every present entry present. -/
theorem insertLoc_keeps_isSome (k u q : String) (m : NickLocations)
    (h : (m k).isSome = true) : (insertLoc u q m k).isSome = true := by
  unfold insertLoc
  split <;> simp_all

/-- C4: if the input is a location or zip input (rule 2 or rule 3 applies:
the location or zip pattern matches and the text is not the bare trigger),
then resolving it returns some query q and stores q for the requester, and a
subsequent resolve of the bare trigger "!w" returns `some q` while leaving the
store unchanged. -/
theorem parse_then_bare_trigger_roundtrip (t u : String) (m : NickLocations)
    (h1 : t ≠ "!w")
    (h2 : (capture isLocChar t.data).isSome = true ∨
          (capture isZipChar t.data).isSome = true) :
    ∃ q m2, parse_weather_query t u m = (some q, m2) ∧ m2 u = some q ∧
      parse_weather_query "!w" u m2 = (some q, m2) := by
  have hins : ∀ q : String, insertLoc u q m u = some q := by
    intro q; simp [insertLoc]
  have hbare : ∀ (q : String) (m2 : NickLocations), m2 u = some q →
      parse_weather_query "!w" u m2 = (some q, m2) := by
    intro q m2 hm2
    simp [parse_weather_query, hm2]
  rcases hcap : capture isLocChar t.data with _ | cap
  · rcases hzip : capture isZipChar t.data with _ | cap
    · rw [hcap, hzip] at h2
      simp at h2
    · refine ⟨String.mk cap ++ ",+USA",
        insertLoc u (String.mk cap ++ ",+USA") m, ?_, hins _, hbare _ _ (hins _)⟩
      simp [parse_weather_query, h1, hcap, hzip]
  · refine ⟨String.mk (replaceChar ',' '+' (replaceChar ' ' '+' cap)),
      insertLoc u (String.mk (replaceChar ',' '+' (replaceChar ' ' '+' cap))) m,
      ?_, hins _, hbare _ _ (hins _)⟩
    simp [parse_weather_query, h1, hcap]

/-- Witness for `parse_then_bare_trigger_roundtrip` at "!w Paris". -/
theorem parse_then_bare_trigger_roundtrip_witness :
    ∃ q m2, parse_weather_query "!w Paris" "u" emptyLocations = (some q, m2) ∧
      m2 "u" = some q ∧ parse_weather_query "!w" "u" m2 = (some q, m2) :=
  parse_then_bare_trigger_roundtrip "!w Paris" "u" emptyLocations
    (by decide) (Or.inl (by decide))

/-- C9: every resolve call (a) never removes a present entry, (b) leaves the
store completely unchanged on the two lookup forms (bare trigger; inputs where
neither the location nor the zip pattern matches, which includes the nickname
lookup and non-matching inputs), and (c) mutates the store only by inserting
the returned query under the requester, and only when the input is a
resolvable location or zip query. -/
theorem parse_store_invariant (t u : String) (m : NickLocations) :
    (∀ k, (m k).isSome = true →
      ((parse_weather_query t u m).2 k).isSome = true) ∧
    ((t = "!w" ∨ (capture isLocChar t.data = none ∧
        capture isZipChar t.data = none)) →
      (parse_weather_query t u m).2 = m) ∧
    ((parse_weather_query t u m).2 ≠ m →
      t ≠ "!w" ∧
      (capture isLocChar t.data ≠ none ∨ capture isZipChar t.data ≠ none) ∧
      ∃ q, (parse_weather_query t u m).1 = some q ∧
        (parse_weather_query t u m).2 = insertLoc u q m) := by
  by_cases ht : t = "!w"
  · subst ht
    simp [parse_weather_query]
  · rcases hloc : capture isLocChar t.data with _ | cap
    · rcases hzip : capture isZipChar t.data with _ | cap
      · rcases hnick : capture isNickChar t.data with _ | cap <;>
          simp [parse_weather_query, ht, hloc, hzip, hnick]
      · have hp : parse_weather_query t u m =
            (some (String.mk cap ++ ",+USA"),
             insertLoc u (String.mk cap ++ ",+USA") m) := by
          simp [parse_weather_query, ht, hloc, hzip]
        rw [hp]
        refine ⟨fun k hk => insertLoc_keeps_isSome k u _ m hk, ?_, ?_⟩
        · rintro (h | ⟨-, h⟩)
          · exact absurd h ht
          · exact absurd h (by simp)
        · intro _
          exact ⟨ht, Or.inr (by simp), _, rfl, rfl⟩
    · have hp : parse_weather_query t u m =
          (some (String.mk (replaceChar ',' '+' (replaceChar ' ' '+' cap))),
           insertLoc u (String.mk (replaceChar ',' '+' (replaceChar ' ' '+' cap))) m) := by
        simp [parse_weather_query, ht, hloc]
      rw [hp]
      refine ⟨fun k hk => insertLoc_keeps_isSome k u _ m hk, ?_, ?_⟩
      · rintro (h | ⟨h, -⟩)
        · exact absurd h ht
        · exact absurd h (by simp)
      · intro _
        exact ⟨ht, Or.inl (by simp), _, rfl, rfl⟩

/-- Witness for `parse_store_invariant` at the zip input "!w 10001". -/
theorem parse_store_invariant_witness :
    (∀ k, (emptyLocations k).isSome = true →
      ((parse_weather_query "!w 10001" "u" emptyLocations).2 k).isSome = true) ∧
    (("!w 10001" = "!w" ∨ (capture isLocChar "!w 10001".data = none ∧
        capture isZipChar "!w 10001".data = none)) →
      (parse_weather_query "!w 10001" "u" emptyLocations).2 = emptyLocations) ∧
    ((parse_weather_query "!w 10001" "u" emptyLocations).2 ≠ emptyLocations →
      "!w 10001" ≠ "!w" ∧
      (capture isLocChar "!w 10001".data ≠ none ∨
        capture isZipChar "!w 10001".data ≠ none) ∧
      ∃ q, (parse_weather_query "!w 10001" "u" emptyLocations).1 = some q ∧
        (parse_weather_query "!w 10001" "u" emptyLocations).2 =
          insertLoc "u" q emptyLocations) :=
  parse_store_invariant "!w 10001" "u" emptyLocations

/- ## Claims C5, C6: the reply chunker

`send_weather_data` (src/main.rs:148-165) splits the full response with
`full_response.chars().collect::<Vec<char>>().chunks(400)`: fixed-size
grouping of the sequence of logical characters (code points). `slice::chunks`
yields consecutive groups of exactly `n` elements, the last group possibly
shorter, and yields nothing at all on an empty slice. -/

/-- Shallow embedding of `slice::chunks(n)`: consecutive pieces of `n`
elements, last piece possibly shorter, empty input gives no pieces.
(Rust panics on `n = 0`; we return no pieces, and only reason about `n > 0`.) -/
def chunksOf {α : Type} (n : Nat) (l : List α) : List (List α) :=
  if l.isEmpty || n == 0 then []
  else l.take n :: chunksOf n (l.drop n)
termination_by l.length
decreasing_by
  rename_i h
  simp only [Bool.or_eq_true, List.isEmpty_iff, beq_iff_eq, not_or] at h
  have h1 : l.length ≠ 0 := fun hz => h.1 (List.length_eq_zero.mp hz)
  simp only [List.length_drop]
  omega

/-- The chunks sent for one reply: chunk the full response at the fixed
limit 400 and collect each piece back into a string. -/
def send_weather_data_chunks (full_response : String) : List String :=
  (chunksOf 400 full_response.data).map String.mk

theorem chunksOf_spec {α : Type} (L : Nat) (hL : 0 < L) :
    ∀ (n : Nat) (l : List α), l.length ≤ n →
      (chunksOf L l).flatten = l ∧ ∀ c ∈ chunksOf L l, c.length ≤ L := by
  intro n
  induction n with
  | zero =>
      intro l hl
      have hnil : l = [] := by cases l <;> simp_all
      subst hnil
      unfold chunksOf
      simp
  | succ n ih =>
      intro l hl
      by_cases hc : (l.isEmpty || L == 0) = true
      · unfold chunksOf
        rw [if_pos hc]
        simp only [Bool.or_eq_true, List.isEmpty_iff, beq_iff_eq] at hc
        have hnil : l = [] := by
          rcases hc with h | h
          · exact h
          · omega
        subst hnil
        simp
      · unfold chunksOf
        rw [if_neg hc]
        simp only [Bool.or_eq_true, List.isEmpty_iff, beq_iff_eq, not_or] at hc
        have hlen : (l.drop L).length ≤ n := by
          have h1 : l.length ≠ 0 := fun hz => hc.1 (List.length_eq_zero.mp hz)
          simp only [List.length_drop]
          omega
        obtain ⟨ihj, ihb⟩ := ih (l.drop L) hlen
        constructor
        · simp [ihj]
        · intro c hcmem
          rcases List.mem_cons.mp hcmem with h | h
          · subst h
            simp [List.length_take]
          · exact ihb c h

/-- C5: for every string S (as its sequence of logical characters) and every
limit L > 0, chunking yields a finite list of pieces whose in-order
concatenation is exactly S, and every piece has length at most L characters. -/
theorem chunksOf_concat_and_le (S : List Char) (L : Nat) (hL : 0 < L) :
    (chunksOf L S).flatten = S ∧ ∀ c ∈ chunksOf L S, c.length ≤ L :=
  chunksOf_spec L hL S.length S le_rfl

/-- Witness for `chunksOf_concat_and_le` at S = "abcde", L = 2. -/
theorem chunksOf_concat_and_le_witness :
    0 < 2 ∧ ((chunksOf 2 "abcde".data).flatten = "abcde".data ∧
      ∀ c ∈ chunksOf 2 "abcde".data, c.length ≤ 2) :=
  ⟨by decide, chunksOf_concat_and_le "abcde".data 2 (by decide)⟩

/-- C6 counterexample: chunking the empty string at the program's limit 400
yields the empty list of chunks — zero chunks, not one empty chunk — and so
`send_weather_data` sends no message at all for an empty response. -/
theorem chunksOf_empty_yields_no_chunk :
    chunksOf 400 ("".data) = ([] : List (List Char)) ∧
    (chunksOf 400 ("".data)).length ≠ 1 ∧
    send_weather_data_chunks "" = [] := by
  refine ⟨?_, ?_, ?_⟩ <;>
    simp [chunksOf, send_weather_data_chunks]

/-- C6 (amended): chunking the empty string with any positive limit yields
the empty sequence of chunks (zero chunks, not a single empty chunk).
The limit is kept positive as in the claim: `slice::chunks(0)` panics, a
path outside this model. -/
theorem chunksOf_empty (L : Nat) (hL : 0 < L) :
    chunksOf L ([] : List Char) = [] := by
  unfold chunksOf
  simp

/-- Witness for `chunksOf_empty` at the program's limit L = 400. -/
theorem chunksOf_empty_witness :
    0 < 400 ∧ chunksOf 400 ([] : List Char) = [] :=
  ⟨by decide, chunksOf_empty 400 (by decide)⟩

/- ## Claim C7: the supervisor loop of `WeatherBot::run` (src/main.rs:83-91)

`run` is `loop { match self.connect_and_run().await { Ok/Err => println };
sleep(5s) }`: both match arms only log, then the loop sleeps 5 seconds and
goes round again; no arm breaks or returns. We embed the loop body and observe
the loop for an arbitrary finite number of iterations, driven by an arbitrary
oracle giving each attempt's outcome. -/

/-- Outcome of one `connect_and_run` attempt: clean stream end, or an error
(session establishment failure or a propagated handler error). -/
inductive ConnectOutcome : Type
  | ok : ConnectOutcome
  | err : String → ConnectOutcome

/-- One iteration of `run`'s loop body: the log line printed and the delay
slept before the next attempt. Both arms fall through to `sleep(5)`. -/
def runLoopBody : ConnectOutcome → String × Nat
  | .ok => ("Bot disconnected. Attempting to reconnect...", 5)
  | .err e => ("Error: " ++ e ++ ". Attempting to reconnect...", 5)

/-- `run`'s loop observed for `fuel` iterations, starting at attempt index
`k`, with `outcomes i` the result of attempt `i`. Yields the value `run`
returned within the horizon (if any), the number of establishment attempts
made, and the list of delays slept after each attempt. -/
def runObserved (outcomes : Nat → ConnectOutcome) :
    Nat → Nat → Option Unit × Nat × List Nat
  | _, 0 => (none, 0, [])
  | k, fuel + 1 =>
      let d := (runLoopBody (outcomes k)).2
      let rest := runObserved outcomes (k + 1) fuel
      (rest.1, rest.2.1 + 1, d :: rest.2.2)

/-- C7: for every outcome oracle (in particular one whose first N attempts all
fail) and every finite horizon, `run` returns on no execution path (`none`),
makes one establishment attempt per iteration — so after N consecutive
failures the (N+1)-st attempt is still made, with no upper bound — and every
pair of consecutive attempts is separated by the fixed 5-second delay. -/
theorem runObserved_never_returns (outcomes : Nat → ConnectOutcome) :
    ∀ (fuel k : Nat),
      runObserved outcomes k fuel = (none, fuel, List.replicate fuel 5) := by
  intro fuel
  induction fuel with
  | zero => intro k; rfl
  | succ n ih =>
      intro k
      have hd : (runLoopBody (outcomes k)).2 = 5 := by
        cases outcomes k <;> rfl
      simp [runObserved, ih (k + 1), hd, List.replicate]

/- ## Claim C8: the session event loop of `connect_and_run` (src/main.rs:99-107)

`while let Some(message) = stream.next().await { match message { Ok =>
handle_message(...)?, Err(e) => eprintln!(...) } }` then `Ok(())`. We embed the
loop over the finite prefix of events the stream yields before ending, with an
abstract message type and handler (the handler's own result propagates via
`?`, as in the source). -/

/-- The event loop of `connect_and_run`: process the stream's events in
order; a read error (`Except.error`) is logged and the loop continues with the
next event; a read message is handled, a handler failure propagating out; when
the stream ends the loop falls through and returns `ok` to the supervisor. -/
def eventLoop {α : Type} (handle : α → Except String Unit) :
    List (Except String α) → Except String Unit
  | [] => Except.ok ()
  | Except.ok msg :: rest =>
      match handle msg with
      | Except.ok _ => eventLoop handle rest
      | Except.error e => Except.error e
  | Except.error _ :: rest => eventLoop handle rest

/-- C8: a single inbound-event read error anywhere in the stream is handled
locally — the session's outcome with the error present equals the outcome
with it removed, so the session is never torn down by a read error — and when
the event stream itself ends the loop returns `ok` to the supervisor. -/
theorem eventLoop_read_error_is_local {α : Type}
    (handle : α → Except String Unit) (e : String)
    (pre post : List (Except String α)) :
    eventLoop handle (pre ++ Except.error e :: post) =
      eventLoop handle (pre ++ post) ∧
    eventLoop handle ([] : List (Except String α)) = Except.ok () := by
  refine ⟨?_, rfl⟩
  induction pre with
  | nil => rfl
  | cons x rest ih =>
      cases x with
      | ok msg =>
          simp only [List.cons_append, eventLoop]
          cases handle msg <;> simp [ih]
      | error e2 =>
          simpa [eventLoop] using ih

/- ## Claim C10: trigger recognition is not anchored -/

/-- A match attempt at a position whose first character is not the bang
cannot succeed. -/
theorem matchAt_cons_of_ne_bang (p : Char → Bool) (c : Char) (l : List Char)
    (hc : c ≠ '!') : matchAt p (c :: l) = none := by
  unfold matchAt
  split
  · rename_i h
    injection h with h1 _
    exact absurd h1 hc
  · rfl

/-- The leftmost scan skips over any prefix that contains no bang character. -/
theorem capture_append_of_no_bang (p : Char → Bool) :
    ∀ l1 l2 : List Char, (∀ c ∈ l1, c ≠ '!') →
      capture p (l1 ++ l2) = capture p l2 := by
  intro l1
  induction l1 with
  | nil => intro l2 _; rfl
  | cons c rest ih =>
      intro l2 h
      have hc : c ≠ '!' := h c (List.mem_cons_self c rest)
      rw [List.cons_append, capture,
        matchAt_cons_of_ne_bang p c (rest ++ l2) hc]
      exact ih l2 fun x hx => h x (List.mem_cons_of_mem c hx)

/-- C10 counterexample: "hello !w @@@" contains the substring "!w " followed
by '@', a character of the nickname class, yet with an empty store resolution
returns `none` — the nickname branch is a lookup, not a query construction —
so "returns a query" fails for this input. -/
theorem unanchored_nick_lookup_returns_none :
    isNickChar '@' = true ∧
    (parse_weather_query "hello !w @@@" "u" emptyLocations).1 = none ∧
    (parse_weather_query "hello !w @@@" "u" emptyLocations).1 ≠
      (parse_weather_query "!w hello" "u" emptyLocations).1 :=
  ⟨by decide, by decide, by decide⟩

/-- Anchored successful match attempt: a bang-trigger head whose argument
starts with a class character captures the maximal class run. -/
theorem capture_bang_head (p : Char → Bool) (d : Char) (tl : List Char)
    (hd : p d = true) :
    capture p ('!' :: 'w' :: ' ' :: d :: tl) =
      some ((d :: tl).takeWhile p) := by
  simp [capture, matchAt, hd]

/-- C10 (amended): trigger recognition is not anchored. For any prefix with
no '!' character, resolving `pre ++ "!w " ++ rest` behaves exactly as
resolving `"!w " ++ rest` (same result, same store update); and when the
argument starts with a location- or zip-class character the resolution does
return a query. (A nickname-class argument is a lookup and may yield `none`;
see the counterexample.) -/
theorem parse_trigger_unanchored (pre rest u : String) (m : NickLocations)
    (hpre : ∀ c ∈ pre.data, c ≠ '!') :
    parse_weather_query (pre ++ "!w " ++ rest) u m =
      parse_weather_query ("!w " ++ rest) u m ∧
    ∀ d tl, rest.data = d :: tl → (isLocChar d || isZipChar d) = true →
      ((parse_weather_query (pre ++ "!w " ++ rest) u m).1).isSome = true := by
  have hdata : (pre ++ "!w " ++ rest).data = pre.data ++ ("!w " ++ rest).data := by
    simp [String.data_append]
  have hanch : ("!w " ++ rest).data = '!' :: 'w' :: ' ' :: rest.data := by
    rw [String.data_append]
    rfl
  have hlit : ("!w" : String).data = ['!', 'w'] := rfl
  have hne2 : ("!w " ++ rest) ≠ "!w" := by
    intro hEq
    have h2 := congrArg String.data hEq
    rw [hanch, hlit] at h2
    simp at h2
  have hne1 : pre ++ "!w " ++ rest ≠ "!w" := by
    intro hEq
    have h2 := congrArg String.data hEq
    rw [hdata, hanch, hlit] at h2
    have h3 := congrArg List.length h2
    simp [List.length_append] at h3
    omega
  have hcap : ∀ pc : Char → Bool,
      capture pc (pre ++ "!w " ++ rest).data =
        capture pc ("!w " ++ rest).data := by
    intro pc
    rw [hdata]
    exact capture_append_of_no_bang pc pre.data _ hpre
  have hmain : parse_weather_query (pre ++ "!w " ++ rest) u m =
      parse_weather_query ("!w " ++ rest) u m := by
    unfold parse_weather_query
    rw [if_neg hne1, if_neg hne2, hcap isLocChar, hcap isZipChar,
      hcap isNickChar]
  refine ⟨hmain, ?_⟩
  intro d tl hrest hcls
  rw [hmain]
  have hdl : ("!w " ++ rest).data = '!' :: 'w' :: ' ' :: d :: tl := by
    rw [hanch, hrest]
  rw [Bool.or_eq_true] at hcls
  rcases hcls with hld | hzd
  · have hsome : capture isLocChar ("!w " ++ rest).data =
        some ((d :: tl).takeWhile isLocChar) := by
      rw [hdl]
      exact capture_bang_head isLocChar d tl hld
    unfold parse_weather_query
    rw [if_neg hne2, hsome]
    simp
  · by_cases hl : capture isLocChar ("!w " ++ rest).data = none
    · have hz : capture isZipChar ("!w " ++ rest).data =
          some ((d :: tl).takeWhile isZipChar) := by
        rw [hdl]
        exact capture_bang_head isZipChar d tl hzd
      unfold parse_weather_query
      rw [if_neg hne2, hl, hz]
      simp
    · obtain ⟨cap, hcap2⟩ := Option.ne_none_iff_exists'.mp hl
      unfold parse_weather_query
      rw [if_neg hne2, hcap2]
      simp

/-- Witness for `parse_trigger_unanchored` at pre = "hello ", rest = "Boston". -/
theorem parse_trigger_unanchored_witness :
    (parse_weather_query ("hello " ++ "!w " ++ "Boston") "u" emptyLocations =
      parse_weather_query ("!w " ++ "Boston") "u" emptyLocations) ∧
    ∀ d tl, ("Boston" : String).data = d :: tl →
      (isLocChar d || isZipChar d) = true →
      ((parse_weather_query ("hello " ++ "!w " ++ "Boston") "u"
        emptyLocations).1).isSome = true :=
  parse_trigger_unanchored "hello " "Boston" "u" emptyLocations (by decide)
